import Mathlib

/-!
# Model Performance & Calibration Engine: a shallow embedding

This file embeds the core of the `msty-studio-desktop-admin-mcp` repository
(the Metrics Store, the Heuristic Evaluator, the Calibration Harness, the
Handoff Trigger Detector and the Model Comparison Orchestrator, from
`src/phase4_5_tools.py` and `src/server.py`) as executable Lean definitions,
and proves the frozen claims about it.

Modelling conventions:
* Python floats are modelled as `ℚ` (all arithmetic in the engine is exact
  decimal arithmetic on small numbers); Python's `round(x, n)` (banker's
  rounding, half to even) is modelled exactly by `roundTo`.
* SQLite tables are modelled as Lean lists in insertion order; the
  `UNIQUE` constraints and `INSERT OR REPLACE` / insert-or-ignore semantics
  are modelled explicitly on those lists.
* Python dicts whose key sets vary (e.g. the evaluation dict, which may or
  may not carry a `"passed"` key) are modelled as structures with `Option`
  fields, `none` standing for an absent key.
* The external Local Model Client is opaque: its per-call outcomes are
  inputs to the harness/orchestrator functions.
-/

/-- Python's `round` to an integer: round half to even (banker's rounding). -/
def pyRoundInt (q : ℚ) : ℤ :=
  let f : ℤ := Int.fdiv q.num q.den
  let frac : ℚ := q - (f : ℚ)
  if frac < 1/2 then f
  else if 1/2 < frac then f + 1
  else if f % 2 = 0 then f else f + 1

/-- Python's `round(x, d)` for `d ≥ 0` decimal digits. -/
def roundTo (d : ℕ) (q : ℚ) : ℚ :=
  (pyRoundInt (q * 10 ^ d) : ℚ) / 10 ^ d

/-!
## Heuristic Evaluator (`evaluate_response_heuristic`, phase4_5_tools.py)

The Python function builds a dict `{"score": 0.0, "notes": [], "criteria_scores": {}}`,
returns it immediately (with one note appended) when the response is falsy or
its stripped length is below 10, and otherwise goes on to score individual
criteria.  The source listing truncates inside the non-degenerate part, so the
non-degenerate tail is modelled from the spec (see `evalRestSpec`).

The result dict is modelled as `Evaluation`; the `passed` field is an
`Option Bool` because the initial dict has no `"passed"` key.
-/

structure Evaluation where
  score : ℚ
  notes : List String
  criteria_scores : List (String × ℚ)
  passed : Option Bool
deriving DecidableEq, Repr

/-- Modelled from the spec: the non-degenerate tail of
`evaluate_response_heuristic` is missing from the source listing (the file
truncates just after the `response_len < 50` length check).  Per spec §4.2 the
evaluator scores independent criteria (length-appropriateness: short responses
get partial credit 0.3) and the final score is the weighted mean of the
criteria scores clamped to `[0,1]`; the spec's contract gives the result only
the fields `score`, `notes`, `criteriaScores` (so no `"passed"` key). -/
def evalRestSpec (_prompt response _category : String) : Evaluation :=
  let lengthScore : ℚ := if response.length < 50 then 3/10 else 1
  let criteria : List (String × ℚ) := [("length", lengthScore)]
  let mean : ℚ := (criteria.map (·.2)).sum / (criteria.length : ℚ)
  { score := max 0 (min 1 mean)
    notes := if response.length < 50 then ["Response may be too brief"] else []
    criteria_scores := criteria
    passed := none }

/-- `evaluate_response_heuristic(prompt, response, category)`:
`if not response or len(response.strip()) < 10:` append the too-short note and
return the initial evaluation unchanged (score `0.0`, empty criteria map, no
`"passed"` key); otherwise continue with the remaining criteria. -/
def evaluate_response_heuristic (prompt response category : String) : Evaluation :=
  if response = "" ∨ response.trim.length < 10 then
    { score := 0
      notes := ["Response too short or empty"]
      criteria_scores := []
      passed := none }
  else
    evalRestSpec prompt response category

/-!
## `evaluate_response_quality` (server.py)

The MCP tool calls the heuristic and builds its result dict, reading
`evaluation["passed"]` unconditionally while doing so; a missing `"passed"`
key therefore raises `KeyError`.  Fallible execution is modelled with
`Except String`.
-/

structure QualityResult where
  category : String
  quality_score : ℚ
  passed : Bool
  criteria_scores : List (String × ℚ)
  notes : List String
  interpretation : String
deriving DecidableEq, Repr

def evaluate_response_quality (prompt response category : String) :
    Except String QualityResult :=
  let evaluation := evaluate_response_heuristic prompt response category
  match evaluation.passed with
  | none => Except.error "KeyError: passed"
  | some p =>
    let score := evaluation.score
    Except.ok
      { category := category
        quality_score := roundTo 3 score
        passed := p
        criteria_scores := evaluation.criteria_scores.map fun kv => (kv.1, roundTo 2 kv.2)
        notes := evaluation.notes
        interpretation :=
          if 8/10 ≤ score then "Excellent"
          else if 6/10 ≤ score then "Good"
          else if 4/10 ≤ score then "Fair"
          else "Poor" }

/-- Shared helper: the degenerate branch of the evaluator. -/
theorem eval_heuristic_degenerate (prompt response category : String)
    (h : response = "" ∨ response.trim.length < 10) :
    evaluate_response_heuristic prompt response category =
      { score := 0
        notes := ["Response too short or empty"]
        criteria_scores := []
        passed := none } := by
  unfold evaluate_response_heuristic
  simp [h]

/-- **C1.** For every `(prompt, response, category)` triple, if the response is
empty or its whitespace-trimmed length is below 10 characters,
`evaluate_response_heuristic` returns score exactly `0.0` with the
"Response too short or empty" note and an empty `criteria_scores` map —
no further criteria are evaluated. -/
theorem c1_degenerate_floor (prompt response category : String)
    (h : response = "" ∨ response.trim.length < 10) :
    evaluate_response_heuristic prompt response category =
      { score := 0
        notes := ["Response too short or empty"]
        criteria_scores := []
        passed := none } :=
  eval_heuristic_degenerate prompt response category h

theorem c1_degenerate_floor_witness :
    evaluate_response_heuristic "Explain LRU caches" "" "coding" =
      { score := 0
        notes := ["Response too short or empty"]
        criteria_scores := []
        passed := none } :=
  c1_degenerate_floor "Explain LRU caches" "" "coding" (Or.inl rfl)

/-- **C9.** On every degenerate response (empty, or shorter than 10 characters
after trimming) the `evaluate_response_quality` tool raises `KeyError`: the
degenerate branch of `evaluate_response_heuristic` yields a dict with only the
keys `score`, `notes`, `criteria_scores`, and the tool reads
`evaluation["passed"]` unconditionally. -/
theorem c9_quality_tool_keyerror (prompt response category : String)
    (h : response = "" ∨ response.trim.length < 10) :
    evaluate_response_quality prompt response category =
      Except.error "KeyError: passed" := by
  unfold evaluate_response_quality
  rw [eval_heuristic_degenerate prompt response category h]

theorem c9_quality_tool_keyerror_witness :
    evaluate_response_quality "What is 2+2?" "" "reasoning" =
      Except.error "KeyError: passed" :=
  c9_quality_tool_keyerror "What is 2+2?" "" "reasoning" (Or.inl rfl)

/-!
## Model Comparison Orchestrator (`compare_model_responses`, server.py)

Each per-model result dict carries `model_id`, `success`, `latency_seconds`,
and — only when the invocation succeeded and returned choices — a
`quality_score`.  Winner selection runs over the successful results with
Python's `max`/`min`, which return the *first* extremal element in encounter
order (a later element replaces the current best only when strictly better).
-/

structure ModelResult where
  model_id : String
  success : Bool
  latency_seconds : ℚ
  quality_score : Option ℚ
deriving DecidableEq, Repr

/-- The `"balanced"` ranking key:
`x.get("quality_score", 0.5) * 0.6 + (1.0 / max(x["latency_seconds"], 0.1)) * 0.4`. -/
def balancedScore (r : ModelResult) : ℚ :=
  r.quality_score.getD (1/2) * (6/10) + 1 / max r.latency_seconds (1/10) * (4/10)

/-- Python `max(x :: xs, key = f)`: first maximal element in encounter order. -/
def maxByKey (f : ModelResult → ℚ) (x : ModelResult) (xs : List ModelResult) : ModelResult :=
  xs.foldl (fun best y => if f best < f y then y else best) x

/-- Python `min(x :: xs, key = f)`: first minimal element in encounter order. -/
def minByKey (f : ModelResult → ℚ) (x : ModelResult) (xs : List ModelResult) : ModelResult :=
  xs.foldl (fun best y => if f y < f best then y else best) x

/-- The winner-selection step of `compare_model_responses`: filter the
successful responses; if any, pick the best under the requested criteria
(`"speed"` → min latency, `"quality"` → max score with default 0,
otherwise the balanced key) and report its `model_id`. -/
def compare_winner (evaluation_criteria : String) (responses : List ModelResult) :
    Option String :=
  match responses.filter (·.success) with
  | [] => none
  | x :: xs =>
    let best :=
      if evaluation_criteria = "speed" then minByKey (·.latency_seconds) x xs
      else if evaluation_criteria = "quality" then
        maxByKey (fun r => r.quality_score.getD 0) x xs
      else maxByKey balancedScore x xs
    some best.model_id

lemma maxByKey_cons (f : ModelResult → ℚ) (x y : ModelResult) (ys : List ModelResult) :
    maxByKey f x (y :: ys) = maxByKey f (if f x < f y then y else x) ys := rfl

lemma maxByKey_mem (f : ModelResult → ℚ) (x : ModelResult) (xs : List ModelResult) :
    maxByKey f x xs ∈ x :: xs := by
  induction xs generalizing x with
  | nil => simp [maxByKey]
  | cons y ys ih =>
    rw [maxByKey_cons]
    rcases List.mem_cons.mp (ih (if f x < f y then y else x)) with h | h
    · rw [h]
      by_cases hxy : f x < f y
      · simp [hxy]
      · simp [hxy]
    · exact List.mem_cons_of_mem _ (List.mem_cons_of_mem _ h)

lemma le_maxByKey (f : ModelResult → ℚ) (x : ModelResult) (xs : List ModelResult) :
    ∀ z ∈ x :: xs, f z ≤ f (maxByKey f x xs) := by
  induction xs generalizing x with
  | nil => simp [maxByKey]
  | cons y ys ih =>
    intro z hz
    rw [maxByKey_cons]
    have hx : f x ≤ f (if f x < f y then y else x) := by
      by_cases hxy : f x < f y
      · rw [if_pos hxy]; exact le_of_lt hxy
      · rw [if_neg hxy]
    have hy : f y ≤ f (if f x < f y then y else x) := by
      by_cases hxy : f x < f y
      · rw [if_pos hxy]
      · rw [if_neg hxy]; exact le_of_not_lt hxy
    have hhead : f (if f x < f y then y else x) ≤
        f (maxByKey f (if f x < f y then y else x) ys) :=
      ih (if f x < f y then y else x) _ (List.mem_cons_self _ _)
    rcases List.mem_cons.mp hz with rfl | hz'
    · exact le_trans hx hhead
    rcases List.mem_cons.mp hz' with rfl | hz''
    · exact le_trans hy hhead
    · exact ih (if f x < f y then y else x) z (List.mem_cons_of_mem _ hz'')

lemma maxByKey_eq_head (f : ModelResult → ℚ) (x : ModelResult) (xs : List ModelResult)
    (h : ∀ y ∈ xs, f y ≤ f x) : maxByKey f x xs = x := by
  induction xs with
  | nil => rfl
  | cons y ys ih =>
    rw [maxByKey_cons, if_neg (not_lt.mpr (h y (List.mem_cons_self _ _)))]
    exact ih fun z hz => h z (List.mem_cons_of_mem _ hz)

/-- The first model of the spec's reproducibility example:
`quality_score = 0.9`, `latency_seconds = 2.0`, successful. -/
def cmpA : ModelResult := ⟨"model-a", true, 2, some (9/10)⟩

/-- The second model of the spec's reproducibility example:
`quality_score = 0.5`, `latency_seconds = 0.5`, successful. -/
def cmpB : ModelResult := ⟨"model-b", true, 1/2, some (1/2)⟩

/-- **C2, counterexample.** On the claim's own concrete input the code gives
the second model the balanced score `0.3 + (1/0.5)*0.4 = 1.1`, not `0.62`,
and selects the *second* model as winner, not the first. -/
theorem c2_counterexample :
    balancedScore cmpB = 11/10 ∧ balancedScore cmpB ≠ 62/100 ∧
    compare_winner "balanced" [cmpA, cmpB] = some "model-b" ∧
    compare_winner "balanced" [cmpA, cmpB] ≠ some "model-a" := by
  refine ⟨by norm_num [balancedScore, cmpB], by norm_num [balancedScore, cmpB], ?_, ?_⟩
  · norm_num [compare_winner, cmpA, cmpB, List.filter, maxByKey, balancedScore]
    rw [if_neg (by decide : ¬ ("balanced" = "speed")),
      if_neg (by decide : ¬ ("balanced" = "quality"))]
  · norm_num [compare_winner, cmpA, cmpB, List.filter, maxByKey, balancedScore]
    rw [if_neg (by decide : ¬ ("balanced" = "speed")),
      if_neg (by decide : ¬ ("balanced" = "quality"))]
    decide

/-- **C2, amended.** Under the `"balanced"` policy the winner is a successful
model maximising `quality_score * 0.6 + (1 / max(latency_seconds, 0.1)) * 0.4`,
ties broken by encounter order (an earlier model is kept unless a later one is
strictly better); on the concrete pair `(0.9, 2.0)` and `(0.5, 0.5)` the
balanced scores are `0.74` and `1.1` and the *second* model wins. -/
theorem c2_balanced_policy :
    (∀ (rs : List ModelResult) (w : String),
        compare_winner "balanced" rs = some w →
        ∃ b ∈ rs.filter (·.success), b.model_id = w ∧
          ∀ r ∈ rs.filter (·.success), balancedScore r ≤ balancedScore b) ∧
    (∀ (x : ModelResult) (xs : List ModelResult), x.success = true →
        (∀ y ∈ xs, y.success = true → balancedScore y ≤ balancedScore x) →
        compare_winner "balanced" (x :: xs) = some x.model_id) ∧
    balancedScore cmpA = 74/100 ∧ balancedScore cmpB = 11/10 ∧
    compare_winner "balanced" [cmpA, cmpB] = some "model-b" := by
  refine ⟨?_, ?_, by norm_num [balancedScore, cmpA], by norm_num [balancedScore, cmpB], ?_⟩
  · intro rs w hw
    unfold compare_winner at hw
    cases hs : rs.filter (·.success) with
    | nil => rw [hs] at hw; exact absurd hw (by simp)
    | cons x xs =>
      rw [hs] at hw
      simp only [if_neg (by decide : ¬ ("balanced" = "speed")),
        if_neg (by decide : ¬ ("balanced" = "quality")), Option.some.injEq] at hw
      refine ⟨maxByKey balancedScore x xs, ?_, hw, ?_⟩
      · exact maxByKey_mem _ _ _
      · intro r hr
        exact le_maxByKey balancedScore x xs r hr
  · intro x xs hx hle
    unfold compare_winner
    have hfil : (x :: xs).filter (·.success) = x :: xs.filter (·.success) := by
      simp [List.filter_cons, hx]
    rw [hfil]
    simp only [if_neg (by decide : ¬ ("balanced" = "speed")),
      if_neg (by decide : ¬ ("balanced" = "quality")), Option.some.injEq]
    have hmax : maxByKey balancedScore x (xs.filter (·.success)) = x :=
      maxByKey_eq_head _ _ _ fun y hy =>
        hle y (List.mem_filter.mp hy).1 (by
          have := (List.mem_filter.mp hy).2
          simpa using this)
    rw [hmax]
  · norm_num [compare_winner, cmpA, cmpB, List.filter, maxByKey, balancedScore]
    rw [if_neg (by decide : ¬ ("balanced" = "speed")),
      if_neg (by decide : ¬ ("balanced" = "quality"))]

/-!
## Metrics Store (phase4_5_tools.py)

Each SQLite table is modelled as a Lean list in insertion order.  The
`model_metrics` table carries `UNIQUE(model_id, request_timestamp)` and
`record_model_metric` swallows the `IntegrityError` of a duplicate insert, so
the insert is modelled as insert-or-ignore on that key.  `calibration_tests`
carries `test_id TEXT UNIQUE` and `save_calibration_result` uses
`INSERT OR REPLACE`, modelled as delete-matching-then-append.
`datetime.now()` is made explicit as a `now` argument.
-/

structure MetricRecord where
  model_id : String
  request_timestamp : String
  prompt_tokens : Int
  completion_tokens : Int
  total_tokens : Int
  latency_seconds : ℚ
  tokens_per_second : ℚ
  success : Bool
  error_message : Option String
  use_case : Option String
deriving DecidableEq, Repr

/-- The `UNIQUE(model_id, request_timestamp)` key of `model_metrics`. -/
def metricKey (model_id request_timestamp : String) (r : MetricRecord) : Bool :=
  r.model_id == model_id && r.request_timestamp == request_timestamp

/-- `record_model_metric`: derives `total_tokens` and `tokens_per_second`,
inserts the row, and turns a duplicate-key `IntegrityError` into a no-op. -/
def record_model_metric (db : List MetricRecord) (model_id now : String)
    (prompt_tokens completion_tokens : Int) (latency_seconds : ℚ) (success : Bool)
    (error_message use_case : Option String) : List MetricRecord :=
  let total_tokens := prompt_tokens + completion_tokens
  let tokens_per_second : ℚ :=
    if 0 < completion_tokens then (completion_tokens : ℚ) / max latency_seconds (1/10) else 0
  if db.any (metricKey model_id now) then db
  else db ++ [⟨model_id, now, prompt_tokens, completion_tokens, total_tokens,
    latency_seconds, tokens_per_second, success, error_message, use_case⟩]

/-- **C4.** Recording a metric whose `(model_id, timestamp)` key already has a
stored row succeeds as a no-op: the store is unchanged, and exactly one row
with that key exists afterwards, holding the original values. -/
theorem c4_metric_dedup (db : List MetricRecord) (m t : String)
    (pt ct : Int) (lat : ℚ) (s : Bool) (em uc : Option String)
    (h : db.countP (metricKey m t) = 1) :
    record_model_metric db m t pt ct lat s em uc = db ∧
    (record_model_metric db m t pt ct lat s em uc).countP (metricKey m t) = 1 := by
  have hpos : 0 < db.countP (metricKey m t) := by rw [h]; norm_num
  have hany : db.any (metricKey m t) = true :=
    List.any_eq_true.mpr (List.countP_pos_iff.mp hpos)
  have heq : record_model_metric db m t pt ct lat s em uc = db := by
    unfold record_model_metric
    simp [hany]
  exact ⟨heq, by rw [heq]; exact h⟩

theorem c4_metric_dedup_witness :
    record_model_metric
        [⟨"llama", "2026-01-01T00:00:00", 5, 7, 12, 2, 35/10, true, none, some "chat"⟩]
        "llama" "2026-01-01T00:00:00" 9 9 1 true none none =
      [⟨"llama", "2026-01-01T00:00:00", 5, 7, 12, 2, 35/10, true, none, some "chat"⟩] :=
  (c4_metric_dedup
    [⟨"llama", "2026-01-01T00:00:00", 5, 7, 12, 2, 35/10, true, none, some "chat"⟩]
    "llama" "2026-01-01T00:00:00" 9 9 1 true none none (by decide)).1

structure CalibrationTest where
  test_id : String
  model_id : String
  prompt_category : String
  prompt : String
  local_response : String
  quality_score : ℚ
  evaluation_notes : String
  tokens_per_second : ℚ
  timestamp : String
  passed : Bool
deriving DecidableEq, Repr

/-- `save_calibration_result`: `INSERT OR REPLACE` keyed by the `UNIQUE`
`test_id` column — any prior row with the same `test_id` is removed and the
new row inserted. -/
def save_calibration_result (db : List CalibrationTest)
    (test_id model_id prompt_category prompt local_response : String)
    (quality_score : ℚ) (evaluation_notes : String) (tokens_per_second : ℚ)
    (now : String) (passed : Bool) : List CalibrationTest :=
  db.filter (fun r => !(r.test_id == test_id)) ++
    [⟨test_id, model_id, prompt_category, prompt, local_response, quality_score,
      evaluation_notes, tokens_per_second, now, passed⟩]

lemma filter_save_calibration (db : List CalibrationTest)
    (tid m pc p lr : String) (q : ℚ) (en : String) (tps : ℚ) (t : String) (pd : Bool) :
    (save_calibration_result db tid m pc p lr q en tps t pd).filter
        (fun r => r.test_id == tid) =
      [⟨tid, m, pc, p, lr, q, en, tps, t, pd⟩] := by
  unfold save_calibration_result
  rw [List.filter_append]
  have h1 : (db.filter fun r => !(r.test_id == tid)).filter (fun r => r.test_id == tid)
      = [] := by
    induction db with
    | nil => rfl
    | cons a l ih =>
      cases ha : a.test_id == tid <;> simp [List.filter_cons, ha, ih]
  rw [h1]
  simp

/-- **C5.** `save_calibration_result` is an upsert keyed on `test_id`: after
any two saves with the same `test_id`, exactly one row with that id exists,
and its fields are those of the later save. -/
theorem c5_calibration_upsert (db : List CalibrationTest) (tid : String)
    (m1 pc1 p1 lr1 : String) (q1 : ℚ) (en1 : String) (tps1 : ℚ) (t1 : String) (pd1 : Bool)
    (m2 pc2 p2 lr2 : String) (q2 : ℚ) (en2 : String) (tps2 : ℚ) (t2 : String) (pd2 : Bool) :
    (save_calibration_result (save_calibration_result db tid m1 pc1 p1 lr1 q1 en1 tps1 t1 pd1)
        tid m2 pc2 p2 lr2 q2 en2 tps2 t2 pd2).countP (fun r => r.test_id == tid) = 1 ∧
    (save_calibration_result (save_calibration_result db tid m1 pc1 p1 lr1 q1 en1 tps1 t1 pd1)
        tid m2 pc2 p2 lr2 q2 en2 tps2 t2 pd2).filter (fun r => r.test_id == tid) =
      [⟨tid, m2, pc2, p2, lr2, q2, en2, tps2, t2, pd2⟩] := by
  constructor
  · rw [List.countP_eq_length_filter, filter_save_calibration]
    rfl
  · exact filter_save_calibration _ tid m2 pc2 p2 lr2 q2 en2 tps2 t2 pd2

structure HandoffTrigger where
  pattern_type : String
  pattern_description : String
  trigger_count : Int
  last_triggered : Option String
  confidence : ℚ
  active : Bool
deriving DecidableEq, Repr

/-- The lookup key of `record_handoff_trigger`:
exact `(pattern_type, pattern_description)` match. -/
def triggerKeyB (pt pd : String) (r : HandoffTrigger) : Bool :=
  r.pattern_type == pt && r.pattern_description == pd

/-- The `UPDATE ... WHERE id = ?` arm of `record_handoff_trigger`: the row
found by the `SELECT` (the first matching one) gets `trigger_count + 1` and
its `last_triggered` and `confidence` overwritten; all other rows are kept. -/
def updateFirstTrigger (pt pd now : String) (confidence : ℚ) :
    List HandoffTrigger → List HandoffTrigger
  | [] => []
  | r :: rs =>
    if triggerKeyB pt pd r then
      { r with trigger_count := r.trigger_count + 1,
               last_triggered := some now,
               confidence := confidence } :: rs
    else r :: updateFirstTrigger pt pd now confidence rs

/-- `record_handoff_trigger`: look up by exact
`(pattern_type, pattern_description)`; update the found row, or insert a new
row with `trigger_count = 1` (and the schema default `active = 1`). -/
def record_handoff_trigger (db : List HandoffTrigger)
    (pattern_type pattern_description now : String) (confidence : ℚ) :
    List HandoffTrigger :=
  if db.any (triggerKeyB pattern_type pattern_description) then
    updateFirstTrigger pattern_type pattern_description now confidence db
  else
    db ++ [⟨pattern_type, pattern_description, 1, some now, confidence, true⟩]

lemma updateFirstTrigger_append (pt pd now : String) (conf : ℚ)
    (l1 l2 : List HandoffTrigger) (h : ∀ x ∈ l1, triggerKeyB pt pd x = false) :
    updateFirstTrigger pt pd now conf (l1 ++ l2) =
      l1 ++ updateFirstTrigger pt pd now conf l2 := by
  induction l1 with
  | nil => rfl
  | cons a l ih =>
    have ha : triggerKeyB pt pd a = false := h a (List.mem_cons_self _ _)
    simp only [List.cons_append, updateFirstTrigger, ha]
    simp only [Bool.false_eq_true, if_false, List.cons.injEq, true_and]
    exact ih fun x hx => h x (List.mem_cons_of_mem _ hx)

/-- **C7.** `record_handoff_trigger` with an unseen
`(pattern_type, pattern_description)` pair inserts a new row with
`trigger_count = 1`; with a stored pair it increments that row's
`trigger_count` by exactly 1 and replaces its `confidence` and
`last_triggered` values. -/
theorem c7_trigger_upsert (db : List HandoffTrigger)
    (pt pd now : String) (conf : ℚ) :
    ((¬ ∃ r ∈ db, triggerKeyB pt pd r = true) →
      record_handoff_trigger db pt pd now conf =
        db ++ [⟨pt, pd, 1, some now, conf, true⟩]) ∧
    (∀ (l1 l2 : List HandoffTrigger) (r : HandoffTrigger),
      db = l1 ++ r :: l2 → (∀ x ∈ l1, triggerKeyB pt pd x = false) →
      triggerKeyB pt pd r = true →
      record_handoff_trigger db pt pd now conf =
        l1 ++ { r with trigger_count := r.trigger_count + 1,
                       last_triggered := some now,
                       confidence := conf } :: l2) := by
  constructor
  · intro h
    have hany : ¬ (db.any (triggerKeyB pt pd) = true) := fun hc =>
      h (List.any_eq_true.mp hc)
    unfold record_handoff_trigger
    rw [if_neg hany]
  · intro l1 l2 r hdb hl1 hr
    subst hdb
    have hany : (l1 ++ r :: l2).any (triggerKeyB pt pd) = true :=
      List.any_eq_true.mpr ⟨r, List.mem_append_right _ (List.mem_cons_self _ _), hr⟩
    unfold record_handoff_trigger
    rw [if_pos hany, updateFirstTrigger_append pt pd now conf l1 _ hl1]
    simp only [updateFirstTrigger, hr, if_true]

theorem c7_trigger_upsert_witness :
    record_handoff_trigger [] "category_failure" "Local model fails coding tasks"
        "2026-01-02T00:00:00" (1/2) =
      [⟨"category_failure", "Local model fails coding tasks", 1,
        some "2026-01-02T00:00:00", 1/2, true⟩] ∧
    record_handoff_trigger
        [⟨"category_failure", "Local model fails coding tasks", 1,
          some "2026-01-02T00:00:00", 1/2, true⟩]
        "category_failure" "Local model fails coding tasks"
        "2026-01-03T00:00:00" (7/10) =
      [⟨"category_failure", "Local model fails coding tasks", 2,
        some "2026-01-03T00:00:00", 7/10, true⟩] :=
  ⟨(c7_trigger_upsert [] "category_failure" "Local model fails coding tasks"
      "2026-01-02T00:00:00" (1/2)).1 (by simp),
   by
    have := (c7_trigger_upsert
      [⟨"category_failure", "Local model fails coding tasks", 1,
        some "2026-01-02T00:00:00", 1/2, true⟩]
      "category_failure" "Local model fails coding tasks"
      "2026-01-03T00:00:00" (7/10)).2 [] []
      ⟨"category_failure", "Local model fails coding tasks", 1,
        some "2026-01-02T00:00:00", 1/2, true⟩
      rfl (by simp) (by decide)
    simpa using this⟩

/-!
## Handoff Trigger Detector (`identify_handoff_triggers`, server.py)

The `analyse_recent` path reads the most recent (up to 100) calibration
results, keeps the failed ones (`not r.get("passed")`), counts failures per
`prompt_category` with a Python dict (`category_failures[cat] =
category_failures.get(cat, 0) + 1` — insertion-ordered, unique keys), and for
every category with count ≥ 3 calls `record_handoff_trigger` with pattern type
`"category_failure"`, description `f"Local model fails {cat} tasks"` and
confidence `min(count / 10, 1.0)`.

The dict is modelled as an insertion-ordered association list with unique
keys (`bumpCount` updates the first — hence only — entry in place, or appends
a new one); the list of recent results is a parameter (it is what
`get_calibration_results(limit=100)` returned).
-/

/-- One `category_failures[cat] = category_failures.get(cat, 0) + 1` step. -/
def bumpCount : List (String × Nat) → String → List (String × Nat)
  | [], k => [(k, 1)]
  | p :: ps, k => if p.1 == k then (p.1, p.2 + 1) :: ps else p :: bumpCount ps k

/-- `dict.get(k)` on the association list. -/
def lookupN (l : List (String × Nat)) (k : String) : Option Nat :=
  (l.find? (fun p => p.1 == k)).map (·.2)

/-- The `category_failures` dict built from the failed tests. -/
def categoryFailureCounts (failed : List CalibrationTest) : List (String × Nat) :=
  failed.foldl (fun acc t => bumpCount acc t.prompt_category) []

/-- The description `f"Local model fails {cat} tasks"`. -/
def failDescr (cat : String) : String := "Local model fails " ++ cat ++ " tasks"

/-- One iteration of the `for cat, count in category_failures.items()` loop. -/
def detectStep (now : String) (db : List HandoffTrigger) (e : String × Nat) :
    List HandoffTrigger :=
  if 3 ≤ e.2 then
    record_handoff_trigger db "category_failure" (failDescr e.1) now (min ((e.2 : ℚ) / 10) 1)
  else db

/-- The `analyse_recent` arm of `identify_handoff_triggers`: group the failed
recent results by category and record a `category_failure` trigger for every
category with at least 3 failures. -/
def identify_handoff_triggers_analyse (recent : List CalibrationTest)
    (triggers : List HandoffTrigger) (now : String) : List HandoffTrigger :=
  let failed := recent.filter (fun r => !r.passed)
  let category_failures := categoryFailureCounts failed
  category_failures.foldl (detectStep now) triggers

/-- The failed-test count of one category among the recent results. -/
def failedCategoryCount (recent : List CalibrationTest) (cat : String) : Nat :=
  (recent.filter (fun r => !r.passed)).countP (fun r => r.prompt_category == cat)

lemma failDescr_inj {c c' : String} (h : failDescr c = failDescr c') : c = c' := by
  unfold failDescr at h
  have hd := congrArg String.data h
  rw [String.data_append, String.data_append, String.data_append, String.data_append,
    List.append_assoc, List.append_assoc] at hd
  exact String.ext (List.append_cancel_right (List.append_cancel_left hd))

lemma lookupN_bump_self (l : List (String × Nat)) (k : String) :
    lookupN (bumpCount l k) k = some ((lookupN l k).getD 0 + 1) := by
  induction l with
  | nil => simp [bumpCount, lookupN, List.find?]
  | cons p ps ih =>
    cases hp : p.1 == k with
    | true => simp [bumpCount, lookupN, List.find?, hp]
    | false => simpa [bumpCount, lookupN, List.find?, hp] using ih

lemma lookupN_bump_ne (l : List (String × Nat)) (k k' : String) (h : k ≠ k') :
    lookupN (bumpCount l k) k' = lookupN l k' := by
  induction l with
  | nil => simp [bumpCount, lookupN, List.find?, beq_eq_false_iff_ne.mpr h]
  | cons p ps ih =>
    cases hp : p.1 == k with
    | true =>
      have hpk : p.1 = k := beq_iff_eq.mp hp
      have hpk' : (p.1 == k') = false := beq_eq_false_iff_ne.mpr (hpk ▸ h)
      simp [bumpCount, lookupN, List.find?, hp, hpk']
    | false =>
      cases hp' : p.1 == k' with
      | true => simp [bumpCount, lookupN, List.find?, hp, hp']
      | false => simpa [bumpCount, lookupN, List.find?, hp, hp'] using ih

lemma mem_keys_bump {x : String} {l : List (String × Nat)} {k : String}
    (h : x ∈ (bumpCount l k).map Prod.fst) : x ∈ l.map Prod.fst ∨ x = k := by
  induction l with
  | nil => simpa [bumpCount] using h
  | cons p ps ih =>
    cases hp : p.1 == k with
    | true =>
      rw [bumpCount, if_pos hp] at h
      simp only [List.map_cons, List.mem_cons] at h ⊢
      tauto
    | false =>
      rw [bumpCount, if_neg (by simp [hp])] at h
      simp only [List.map_cons, List.mem_cons] at h ⊢
      rcases h with h | h
      · exact Or.inl (Or.inl h)
      · rcases ih h with h' | h'
        · exact Or.inl (Or.inr h')
        · exact Or.inr h'

lemma keys_nodup_bump (l : List (String × Nat)) (k : String)
    (h : (l.map Prod.fst).Nodup) : ((bumpCount l k).map Prod.fst).Nodup := by
  induction l with
  | nil => simp [bumpCount]
  | cons p ps ih =>
    cases hp : p.1 == k with
    | true =>
      rw [bumpCount, if_pos hp]
      simpa using h
    | false =>
      rw [bumpCount, if_neg (by simp [hp])]
      simp only [List.map_cons, List.nodup_cons] at h ⊢
      refine ⟨fun hmem => ?_, ih h.2⟩
      rcases mem_keys_bump hmem with h' | h'
      · exact h.1 h'
      · exact absurd (h' ▸ hp) (by simp [h'])

lemma keys_nodup_fold (ts : List CalibrationTest) :
    ∀ acc : List (String × Nat), (acc.map Prod.fst).Nodup →
      ((ts.foldl (fun a t => bumpCount a t.prompt_category) acc).map Prod.fst).Nodup := by
  induction ts with
  | nil => intro acc h; simpa using h
  | cons t ts ih =>
    intro acc h
    exact ih (bumpCount acc t.prompt_category) (keys_nodup_bump acc t.prompt_category h)

lemma lookupN_fold_pos (ts : List CalibrationTest) :
    ∀ (acc : List (String × Nat)) (k : String),
      ((lookupN acc k).isSome ∨ 0 < ts.countP (fun t => t.prompt_category == k)) →
      lookupN (ts.foldl (fun a t => bumpCount a t.prompt_category) acc) k =
        some ((lookupN acc k).getD 0 + ts.countP (fun t => t.prompt_category == k)) := by
  induction ts with
  | nil =>
    intro acc k h
    rcases h with h | h
    · rcases Option.isSome_iff_exists.mp h with ⟨n, hn⟩
      simp [hn]
    · simp at h
  | cons t ts ih =>
    intro acc k h
    rw [List.foldl_cons]
    cases hk : t.prompt_category == k with
    | true =>
      have hck : t.prompt_category = k := beq_iff_eq.mp hk
      have hself : lookupN (bumpCount acc t.prompt_category) k
          = some ((lookupN acc k).getD 0 + 1) := by
        rw [hck]; exact lookupN_bump_self acc k
      have := ih (bumpCount acc t.prompt_category) k (Or.inl (by simp [hself]))
      rw [this, hself]
      simp [List.countP_cons, hk]
      omega
    | false =>
      have hne : lookupN (bumpCount acc t.prompt_category) k = lookupN acc k :=
        lookupN_bump_ne acc t.prompt_category k (fun hc => by simp [hc] at hk)
      have hcnt : (t :: ts).countP (fun t => t.prompt_category == k)
          = ts.countP (fun t => t.prompt_category == k) := by
        simp [List.countP_cons, hk]
      rw [hcnt] at h ⊢
      rw [ih (bumpCount acc t.prompt_category) k (by rwa [hne]), hne]

lemma lookupN_fold_none (ts : List CalibrationTest) :
    ∀ (acc : List (String × Nat)) (k : String),
      lookupN acc k = none → ts.countP (fun t => t.prompt_category == k) = 0 →
      lookupN (ts.foldl (fun a t => bumpCount a t.prompt_category) acc) k = none := by
  induction ts with
  | nil => intro acc k h _; simpa using h
  | cons t ts ih =>
    intro acc k h hc
    rw [List.countP_cons] at hc
    cases hk : t.prompt_category == k with
    | true => simp [hk] at hc
    | false =>
      rw [List.foldl_cons]
      have hne : lookupN (bumpCount acc t.prompt_category) k = lookupN acc k :=
        lookupN_bump_ne acc t.prompt_category k (fun hcc => by simp [hcc] at hk)
      exact ih _ k (hne.trans h) (by simpa [hk] using hc)

lemma find?_split {α : Type} (p : α → Bool) (l : List α) (a : α)
    (h : l.find? p = some a) :
    ∃ l1 l2, l = l1 ++ a :: l2 ∧ ∀ x ∈ l1, p x = false := by
  induction l with
  | nil => simp at h
  | cons x xs ih =>
    cases hx : p x with
    | true =>
      rw [List.find?_cons_of_pos _ hx] at h
      exact ⟨[], xs, by simpa using (Option.some.inj h).symm ▸ rfl, by simp⟩
    | false =>
      rw [List.find?_cons_of_neg _ (by simp [hx])] at h
      obtain ⟨l1, l2, hl, hp⟩ := ih h
      refine ⟨x :: l1, l2, by rw [hl]; rfl, ?_⟩
      intro y hy
      rcases List.mem_cons.mp hy with rfl | hy'
      · exact hx
      · exact hp y hy'

lemma updFirst_filter_ne (pt pd now : String) (conf : ℚ) (pt' pd' : String)
    (h : pt ≠ pt' ∨ pd ≠ pd') :
    ∀ db : List HandoffTrigger,
      (updateFirstTrigger pt pd now conf db).filter (triggerKeyB pt' pd') =
        db.filter (triggerKeyB pt' pd') := by
  intro db
  induction db with
  | nil => rfl
  | cons r rs ih =>
    cases hr : triggerKeyB pt pd r with
    | true =>
      have hr1 : r.pattern_type = pt :=
        beq_iff_eq.mp (Bool.and_eq_true _ _ ▸ hr).1
      have hr2 : r.pattern_description = pd :=
        beq_iff_eq.mp (Bool.and_eq_true _ _ ▸ hr).2
      have hkr : triggerKeyB pt' pd' r = false := by
        unfold triggerKeyB
        rw [hr1, hr2]
        rcases h with h | h
        · simp [beq_eq_false_iff_ne.mpr h]
        · simp [beq_eq_false_iff_ne.mpr h]
      have hkr' : triggerKeyB pt' pd'
          { r with trigger_count := r.trigger_count + 1,
                   last_triggered := some now, confidence := conf } = false := hkr
      rw [updateFirstTrigger, if_pos (by rw [hr])]
      rw [List.filter_cons_of_neg (by simp [hkr']), List.filter_cons_of_neg (by simp [hkr])]
    | false =>
      rw [updateFirstTrigger, if_neg (by simp [hr])]
      cases hk : triggerKeyB pt' pd' r with
      | true =>
        rw [List.filter_cons_of_pos (by simp [hk]), List.filter_cons_of_pos (by simp [hk]), ih]
      | false =>
        rw [List.filter_cons_of_neg (by simp [hk]), List.filter_cons_of_neg (by simp [hk]), ih]

lemma record_filter_ne (db : List HandoffTrigger) (pt pd now : String) (conf : ℚ)
    (pt' pd' : String) (h : pt ≠ pt' ∨ pd ≠ pd') :
    (record_handoff_trigger db pt pd now conf).filter (triggerKeyB pt' pd') =
      db.filter (triggerKeyB pt' pd') := by
  unfold record_handoff_trigger
  cases hany : db.any (triggerKeyB pt pd) with
  | true =>
    rw [if_pos rfl]
    exact updFirst_filter_ne pt pd now conf pt' pd' h db
  | false =>
    rw [if_neg (by simp)]
    rw [List.filter_append]
    have hnew : triggerKeyB pt' pd'
        (⟨pt, pd, 1, some now, conf, true⟩ : HandoffTrigger) = false := by
      unfold triggerKeyB
      rcases h with h | h
      · simp [beq_eq_false_iff_ne.mpr h]
      · simp [beq_eq_false_iff_ne.mpr h]
    simp [hnew]

lemma updFirst_mem_conf (pt pd now : String) (conf : ℚ) :
    ∀ db : List HandoffTrigger, db.any (triggerKeyB pt pd) = true →
      ∃ r ∈ updateFirstTrigger pt pd now conf db,
        r.pattern_type = pt ∧ r.pattern_description = pd ∧
        r.confidence = conf ∧ r.last_triggered = some now := by
  intro db
  induction db with
  | nil => intro h; simp at h
  | cons x xs ih =>
    intro h
    cases hx : triggerKeyB pt pd x with
    | true =>
      have hx1 : x.pattern_type = pt :=
        beq_iff_eq.mp (Bool.and_eq_true _ _ ▸ hx).1
      have hx2 : x.pattern_description = pd :=
        beq_iff_eq.mp (Bool.and_eq_true _ _ ▸ hx).2
      rw [updateFirstTrigger, if_pos (by rw [hx])]
      exact ⟨_, List.mem_cons_self _ _, hx1, hx2, rfl, rfl⟩
    | false =>
      have h' : xs.any (triggerKeyB pt pd) = true := by
        simpa [hx] using h
      obtain ⟨r, hr, hp⟩ := ih h'
      rw [updateFirstTrigger, if_neg (by simp [hx])]
      exact ⟨r, List.mem_cons_of_mem _ hr, hp⟩

lemma record_mem_conf (db : List HandoffTrigger) (pt pd now : String) (conf : ℚ) :
    ∃ r ∈ record_handoff_trigger db pt pd now conf,
      r.pattern_type = pt ∧ r.pattern_description = pd ∧
      r.confidence = conf ∧ r.last_triggered = some now := by
  unfold record_handoff_trigger
  cases hany : db.any (triggerKeyB pt pd) with
  | true =>
    rw [if_pos rfl]
    exact updFirst_mem_conf pt pd now conf db hany
  | false =>
    rw [if_neg (by simp)]
    exact ⟨⟨pt, pd, 1, some now, conf, true⟩,
      List.mem_append_right _ (List.mem_cons_self _ _), rfl, rfl, rfl, rfl⟩

lemma detect_fold_filter_ne (now cat : String) :
    ∀ (entries : List (String × Nat)) (db : List HandoffTrigger),
      (∀ e ∈ entries, e.1 ≠ cat) →
      (entries.foldl (detectStep now) db).filter
          (triggerKeyB "category_failure" (failDescr cat)) =
        db.filter (triggerKeyB "category_failure" (failDescr cat)) := by
  intro entries
  induction entries with
  | nil => intro db _; rfl
  | cons e es ih =>
    intro db h
    rw [List.foldl_cons]
    rw [ih (detectStep now db e) fun x hx => h x (List.mem_cons_of_mem _ hx)]
    unfold detectStep
    by_cases h3 : 3 ≤ e.2
    · rw [if_pos h3]
      exact record_filter_ne db _ _ now _ _ _
        (Or.inr fun hc => h e (List.mem_cons_self _ _) (failDescr_inj hc))
    · rw [if_neg h3]

/-- **C6.** Over the recent calibration results, the detector records a
`HandoffTrigger` with `pattern_type = "category_failure"` and a description
naming the category exactly for the categories with at least 3 failed tests,
with confidence exactly `min(count / 10, 1.0)`; a category with fewer than 3
failures causes no trigger creation or update (the rows under its trigger key
are untouched). -/
theorem c6_category_failure_triggers (recent : List CalibrationTest)
    (triggers : List HandoffTrigger) (now cat : String) :
    (3 ≤ failedCategoryCount recent cat →
      ∃ r ∈ identify_handoff_triggers_analyse recent triggers now,
        r.pattern_type = "category_failure" ∧
        r.pattern_description = failDescr cat ∧
        r.confidence = min ((failedCategoryCount recent cat : ℚ) / 10) 1 ∧
        r.last_triggered = some now) ∧
    (failedCategoryCount recent cat < 3 →
      (identify_handoff_triggers_analyse recent triggers now).filter
          (triggerKeyB "category_failure" (failDescr cat)) =
        triggers.filter (triggerKeyB "category_failure" (failDescr cat))) := by
  have hana : identify_handoff_triggers_analyse recent triggers now =
      (categoryFailureCounts (recent.filter (fun r => !r.passed))).foldl
        (detectStep now) triggers := rfl
  have hcnt : failedCategoryCount recent cat =
      (recent.filter (fun r => !r.passed)).countP (fun r => r.prompt_category == cat) := rfl
  have hsplit : 0 < failedCategoryCount recent cat →
      ∃ (l1 l2 : List (String × Nat)),
        categoryFailureCounts (recent.filter (fun r => !r.passed)) =
          l1 ++ (cat, failedCategoryCount recent cat) :: l2 ∧
        (∀ x ∈ l1, x.1 ≠ cat) ∧ (∀ x ∈ l2, x.1 ≠ cat) := by
    intro hpos
    have hlook : lookupN (categoryFailureCounts (recent.filter (fun r => !r.passed))) cat
        = some (failedCategoryCount recent cat) := by
      have := lookupN_fold_pos (recent.filter (fun r => !r.passed)) [] cat
        (Or.inr (hcnt ▸ hpos))
      simpa [categoryFailureCounts, lookupN, hcnt] using this
    obtain ⟨pr, hfind, hpr2⟩ := Option.map_eq_some'.mp hlook
    have hfs := @List.find?_some (String × Nat) (fun p => p.1 == cat) pr _ hfind
    have hpr1 : pr.1 = cat := beq_iff_eq.mp hfs
    obtain ⟨l1, l2, hl, hl1⟩ := find?_split _ _ pr hfind
    have hnodup : ((categoryFailureCounts (recent.filter (fun r => !r.passed))).map
        Prod.fst).Nodup :=
      keys_nodup_fold (recent.filter (fun r => !r.passed)) [] (by simp)
    rw [hl, List.map_append, List.map_cons] at hnodup
    have hnotin : pr.1 ∉ l2.map Prod.fst :=
      (List.nodup_cons.mp hnodup.of_append_right).1
    obtain ⟨prc, prn⟩ := pr
    simp only at hpr1 hpr2
    subst hpr1; subst hpr2
    refine ⟨l1, l2, hl, ?_, ?_⟩
    · intro x hx heq
      have := hl1 x hx
      simp [heq] at this
    · intro x hx heq
      have hm : x.1 ∈ l2.map Prod.fst := List.mem_map_of_mem Prod.fst hx
      rw [heq] at hm
      exact hnotin hm
  constructor
  · intro h3
    obtain ⟨l1, l2, hl, _, hkey2⟩ := hsplit (by omega)
    rw [hana, hl, List.foldl_append, List.foldl_cons]
    set db1 := l1.foldl (detectStep now) triggers with hdb1
    have hstep : detectStep now db1 (cat, failedCategoryCount recent cat) =
        record_handoff_trigger db1 "category_failure" (failDescr cat) now
          (min ((failedCategoryCount recent cat : ℚ) / 10) 1) := by
      unfold detectStep
      rw [if_pos h3]
    rw [hstep]
    obtain ⟨r, hr, hp1, hp2, hp3, hp4⟩ := record_mem_conf db1 "category_failure"
      (failDescr cat) now (min ((failedCategoryCount recent cat : ℚ) / 10) 1)
    have hkeyr : triggerKeyB "category_failure" (failDescr cat) r = true := by
      unfold triggerKeyB
      rw [hp1, hp2]
      simp
    have hpres := detect_fold_filter_ne now cat l2
      (record_handoff_trigger db1 "category_failure" (failDescr cat) now
        (min ((failedCategoryCount recent cat : ℚ) / 10) 1)) hkey2
    have hrfil : r ∈ (record_handoff_trigger db1 "category_failure" (failDescr cat) now
        (min ((failedCategoryCount recent cat : ℚ) / 10) 1)).filter
          (triggerKeyB "category_failure" (failDescr cat)) :=
      List.mem_filter.mpr ⟨hr, hkeyr⟩
    rw [← hpres] at hrfil
    exact ⟨r, (List.mem_filter.mp hrfil).1, hp1, hp2, hp3, hp4⟩
  · intro hlt
    rcases Nat.eq_zero_or_pos (failedCategoryCount recent cat) with hz | hpos
    · have hnone : lookupN (categoryFailureCounts (recent.filter (fun r => !r.passed))) cat
          = none :=
        lookupN_fold_none (recent.filter (fun r => !r.passed)) [] cat rfl (hcnt ▸ hz)
      have hfind : (categoryFailureCounts (recent.filter (fun r => !r.passed))).find?
          (fun p => p.1 == cat) = none := Option.map_eq_none'.mp hnone
      have hkeys : ∀ x ∈ categoryFailureCounts (recent.filter (fun r => !r.passed)),
          x.1 ≠ cat := by
        intro x hx heq
        have := List.find?_eq_none.mp hfind x hx
        simp [heq] at this
      rw [hana]
      exact detect_fold_filter_ne now cat _ triggers hkeys
    · obtain ⟨l1, l2, hl, hkey1, hkey2⟩ := hsplit hpos
      rw [hana, hl, List.foldl_append, List.foldl_cons]
      have hstep : detectStep now (l1.foldl (detectStep now) triggers)
          (cat, failedCategoryCount recent cat) = l1.foldl (detectStep now) triggers := by
        unfold detectStep
        rw [if_neg (by omega)]
      rw [hstep, detect_fold_filter_ne now cat l2 _ hkey2,
        detect_fold_filter_ne now cat l1 _ hkey1]

/-- A failed calibration row in the `"coding"` category. -/
def codingFail (tid : String) : CalibrationTest :=
  ⟨tid, "local-model", "coding", "prompt", "resp", 2/10, "[]", 15/10,
    "2026-01-04T00:00:00", false⟩

def recentC6 : List CalibrationTest := [codingFail "a", codingFail "b", codingFail "c"]

def trigC6 : HandoffTrigger :=
  ⟨"category_failure", failDescr "writing", 2, some "t0", 3/10, true⟩

theorem c6_category_failure_triggers_witness :
    (∃ r ∈ identify_handoff_triggers_analyse recentC6 [] "2026-01-05",
        r.pattern_type = "category_failure" ∧
        r.pattern_description = failDescr "coding" ∧
        r.confidence = min ((failedCategoryCount recentC6 "coding" : ℚ) / 10) 1 ∧
        r.last_triggered = some "2026-01-05") ∧
    (identify_handoff_triggers_analyse [] [trigC6] "2026-01-05").filter
        (triggerKeyB "category_failure" (failDescr "writing")) =
      [trigC6].filter (triggerKeyB "category_failure" (failDescr "writing")) :=
  ⟨(c6_category_failure_triggers recentC6 [] "2026-01-05" "coding").1 (by decide),
   (c6_category_failure_triggers [] [trigC6] "2026-01-05" "writing").2 (by decide)⟩

/-!
## Calibration Harness (`run_calibration_test`, server.py)

Per prompt, the harness invokes the Local Model Client (opaque: outcomes are
inputs), builds a per-test result dict, and — only on a successful invocation
that returned choices — evaluates the response, updates the running pass
count and score total, and persists a `CalibrationTest` row via
`save_calibration_result`.  A failed invocation yields a test entry with
`passed = False` and the error, and the loop moves on to the next prompt.
The test-entry dict's varying keys are `Option` fields.
-/

/-- One Local Model Client call outcome: `success`, the message content when
the response carried a non-empty `choices` array, and the error otherwise. -/
structure InvokeOutcome where
  success : Bool
  choices_content : Option String
  error : Option String
  elapsed : ℚ
deriving DecidableEq, Repr

/-- One prompt of a calibration run, with its (externally generated) test id,
invocation outcome and wall-clock timestamp. -/
structure PromptTrial where
  category : String
  prompt : String
  test_id : String
  outcome : InvokeOutcome
  now : String
deriving DecidableEq, Repr

/-- The per-test result dict appended to `result["tests"]`. -/
structure TestEntry where
  test_id : String
  category : String
  prompt_preview : String
  latency_seconds : ℚ
  quality_score : Option ℚ
  passed : Option Bool
  notes : Option (List String)
  error : Option (Option String)
deriving DecidableEq, Repr

/-- `json.dumps` of the evaluator's notes (plain ASCII strings, no JSON
escaping needed). -/
def json_dumps_strings (l : List String) : String :=
  "[" ++ String.intercalate ", " (l.map (fun s => "\x22" ++ s ++ "\x22")) ++ "]"

/-- The test entry built for one trial: base fields always; on success with
choices the evaluation fields; on failure the error and `passed = False`; on
success without choices neither. -/
def entryOf (passing_threshold : ℚ) (t : PromptTrial) : TestEntry :=
  let base : TestEntry := ⟨t.test_id, t.category, t.prompt.take 100 ++ "...",
    roundTo 2 t.outcome.elapsed, none, none, none, none⟩
  match t.outcome.success, t.outcome.choices_content with
  | true, some content =>
    let evaluation := evaluate_response_heuristic t.prompt content t.category
    { base with quality_score := some (roundTo 2 evaluation.score)
                passed := some (decide (passing_threshold ≤ evaluation.score))
                notes := some evaluation.notes }
  | true, none => base
  | false, _ => { base with passed := some false, error := some t.outcome.error }

/-- The `save_calibration_result` call made for an evaluated trial (note the
source passes the wall-clock `elapsed` as the `tokens_per_second` argument). -/
def saveTrial (passing_threshold : ℚ) (model_id : String)
    (store : List CalibrationTest) (t : PromptTrial) : List CalibrationTest :=
  match t.outcome.choices_content with
  | some content =>
    let evaluation := evaluate_response_heuristic t.prompt content t.category
    save_calibration_result store t.test_id model_id t.category t.prompt content
      evaluation.score (json_dumps_strings evaluation.notes) t.outcome.elapsed t.now
      (decide (passing_threshold ≤ evaluation.score))
  | none => store

/-- Whether a trial reaches the evaluate-and-persist branch
(`response.get("success")` and a non-empty `choices`). -/
def evaluatedB (t : PromptTrial) : Bool :=
  t.outcome.success && t.outcome.choices_content.isSome

/-- The heuristic score of an evaluated trial (`None` when not evaluated). -/
def trialHeuristicScore (t : PromptTrial) : Option ℚ :=
  match t.outcome.success, t.outcome.choices_content with
  | true, some content => some (evaluate_response_heuristic t.prompt content t.category).score
  | _, _ => none

/-- Whether a trial counts into `passed_count`. -/
def passesB (passing_threshold : ℚ) (t : PromptTrial) : Bool :=
  match t.outcome.success, t.outcome.choices_content with
  | true, some content =>
    decide (passing_threshold ≤ (evaluate_response_heuristic t.prompt content t.category).score)
  | _, _ => false

/-- The running state of the `for test_cat, prompt in prompts_to_test` loop. -/
structure RunState where
  passed_count : Nat
  total_score : ℚ
  tests : List TestEntry
  store : List CalibrationTest
deriving DecidableEq, Repr

/-- One iteration of the calibration loop. -/
def runStep (passing_threshold : ℚ) (model_id : String) (st : RunState)
    (t : PromptTrial) : RunState :=
  match t.outcome.success, t.outcome.choices_content with
  | true, some content =>
    let evaluation := evaluate_response_heuristic t.prompt content t.category
    { passed_count := st.passed_count +
        (if passing_threshold ≤ evaluation.score then 1 else 0)
      total_score := st.total_score + evaluation.score
      tests := st.tests ++ [entryOf passing_threshold t]
      store := saveTrial passing_threshold model_id st.store t }
  | _, _ => { st with tests := st.tests ++ [entryOf passing_threshold t] }

/-- The run summary dict. -/
structure RunSummary where
  total_tests : Nat
  passed : Nat
  pass_rate : ℚ
  average_score : ℚ
deriving DecidableEq, Repr

/-- `run_calibration_test` after model/prompt selection: fold the loop over
the trials and build the summary with the `max(total_tests, 1)` guards. -/
def run_calibration_test (passing_threshold : ℚ) (model_id : String)
    (trials : List PromptTrial) (store0 : List CalibrationTest) :
    RunState × RunSummary :=
  let st := trials.foldl (runStep passing_threshold model_id)
    ⟨0, 0, [], store0⟩
  (st,
   { total_tests := trials.length
     passed := st.passed_count
     pass_rate := roundTo 1 ((st.passed_count : ℚ) / ((max trials.length 1 : ℕ) : ℚ) * 100)
     average_score := roundTo 2 (st.total_score / ((max trials.length 1 : ℕ) : ℚ)) })

lemma runStep_tests (thr : ℚ) (m : String) (st : RunState) (t : PromptTrial) :
    (runStep thr m st t).tests = st.tests ++ [entryOf thr t] := by
  unfold runStep
  cases hs : t.outcome.success <;> cases hc : t.outcome.choices_content <;> simp [hs, hc]

lemma runStep_store (thr : ℚ) (m : String) (st : RunState) (t : PromptTrial) :
    (runStep thr m st t).store =
      if evaluatedB t then saveTrial thr m st.store t else st.store := by
  unfold runStep evaluatedB
  cases hs : t.outcome.success <;> cases hc : t.outcome.choices_content <;> simp [hs, hc]

lemma runStep_passed (thr : ℚ) (m : String) (st : RunState) (t : PromptTrial) :
    (runStep thr m st t).passed_count =
      st.passed_count + (if passesB thr t then 1 else 0) := by
  unfold runStep passesB
  cases hs : t.outcome.success <;> cases hc : t.outcome.choices_content <;> simp [hs, hc]

lemma runStep_score (thr : ℚ) (m : String) (st : RunState) (t : PromptTrial) :
    (runStep thr m st t).total_score =
      st.total_score + (trialHeuristicScore t).getD 0 := by
  unfold runStep trialHeuristicScore
  cases hs : t.outcome.success <;> cases hc : t.outcome.choices_content <;> simp [hs, hc]

lemma run_fold_tests (thr : ℚ) (m : String) :
    ∀ (trials : List PromptTrial) (st : RunState),
      (trials.foldl (runStep thr m) st).tests = st.tests ++ trials.map (entryOf thr) := by
  intro trials
  induction trials with
  | nil => intro st; simp
  | cons t ts ih =>
    intro st
    rw [List.foldl_cons, ih, runStep_tests]
    simp

lemma run_fold_store (thr : ℚ) (m : String) :
    ∀ (trials : List PromptTrial) (st : RunState),
      (trials.foldl (runStep thr m) st).store =
        (trials.filter evaluatedB).foldl (saveTrial thr m) st.store := by
  intro trials
  induction trials with
  | nil => intro st; rfl
  | cons t ts ih =>
    intro st
    rw [List.foldl_cons, ih, runStep_store]
    cases hv : evaluatedB t with
    | true => rw [if_pos rfl, List.filter_cons_of_pos hv, List.foldl_cons]
    | false => rw [if_neg (by simp), List.filter_cons_of_neg (by simp [hv])]

lemma run_fold_passed (thr : ℚ) (m : String) :
    ∀ (trials : List PromptTrial) (st : RunState),
      (trials.foldl (runStep thr m) st).passed_count =
        st.passed_count + trials.countP (passesB thr) := by
  intro trials
  induction trials with
  | nil => intro st; simp
  | cons t ts ih =>
    intro st
    rw [List.foldl_cons, ih, runStep_passed, List.countP_cons]
    cases hp : passesB thr t <;> simp [hp]
    omega

lemma run_fold_score (thr : ℚ) (m : String) :
    ∀ (trials : List PromptTrial) (st : RunState),
      (trials.foldl (runStep thr m) st).total_score =
        st.total_score + (trials.filterMap trialHeuristicScore).sum := by
  intro trials
  induction trials with
  | nil => intro st; simp
  | cons t ts ih =>
    intro st
    rw [List.foldl_cons, ih, runStep_score]
    cases hsc : trialHeuristicScore t with
    | some s =>
      simp [List.filterMap_cons, hsc]
      ring
    | none => simp [List.filterMap_cons, hsc]

lemma roundTo_zero (d : ℕ) : roundTo d 0 = 0 := by
  unfold roundTo pyRoundInt
  norm_num

/-- A trial whose invocation failed at the transport/HTTP level. -/
def failTrialC3 : PromptTrial :=
  ⟨"reasoning", "A bat and a ball cost 1.10 in total.", "id1",
    ⟨false, none, some "Connection refused", 1⟩, "2026-01-06T00:00:00"⟩

/-- **C3, counterexample.** A one-prompt run whose invocation fails produces a
test entry (marked failed) but persists *no* `CalibrationTest` row: the
`save_calibration_result` call sits inside the success-with-choices branch
only, so the Metrics Store stays empty — not one row per prompt. -/
theorem c3_counterexample :
    failTrialC3.outcome.success = false ∧
    (run_calibration_test (6/10) "local-model" [failTrialC3] []).1.tests.length = 1 ∧
    (run_calibration_test (6/10) "local-model" [failTrialC3] []).1.store = [] :=
  ⟨rfl, rfl, rfl⟩

/-- **C3, amended.** In a calibration run a failed invocation produces a test
entry with `passed = false` and the error recorded, and the run continues
through all remaining prompts (one entry per prompt, in order); but a
`CalibrationTest` row is persisted only for the prompts whose invocation
succeeded and returned choices — failed invocations are not persisted. -/
theorem c3_failure_handling (thr : ℚ) (model : String)
    (trials : List PromptTrial) (store0 : List CalibrationTest) :
    (run_calibration_test thr model trials store0).1.tests =
      trials.map (entryOf thr) ∧
    (run_calibration_test thr model trials store0).1.store =
      (trials.filter evaluatedB).foldl (saveTrial thr model) store0 ∧
    (∀ t ∈ trials, t.outcome.success = false →
      (entryOf thr t).passed = some false ∧
      (entryOf thr t).error = some t.outcome.error) := by
  refine ⟨?_, ?_, ?_⟩
  · have := run_fold_tests thr model trials ⟨0, 0, [], store0⟩
    simpa [run_calibration_test] using this
  · have := run_fold_store thr model trials ⟨0, 0, [], store0⟩
    simpa [run_calibration_test] using this
  · intro t _ hf
    unfold entryOf
    rw [hf]
    exact ⟨rfl, rfl⟩

theorem c3_failure_handling_witness :
    (run_calibration_test (6/10) "local-model" [failTrialC3] []).1.tests =
      [failTrialC3].map (entryOf (6/10)) ∧
    (entryOf (6/10) failTrialC3).passed = some false ∧
    (entryOf (6/10) failTrialC3).error = some (some "Connection refused") :=
  ⟨(c3_failure_handling (6/10) "local-model" [failTrialC3] []).1,
   ((c3_failure_handling (6/10) "local-model" [failTrialC3] []).2.2
      failTrialC3 (List.mem_cons_self _ _) rfl).1,
   ((c3_failure_handling (6/10) "local-model" [failTrialC3] []).2.2
      failTrialC3 (List.mem_cons_self _ _) rfl).2⟩

/-- **C8.** The run summary is division-safe: an empty prompt set yields
`{total_tests: 0, passed: 0, pass_rate: 0, average_score: 0}` (the
`max(total_tests, 1)` guards avoid division by zero), and for a non-empty
prompt set `pass_rate` is `passed / total_tests * 100` and `average_score` is
the sum of the per-test heuristic scores divided by `total_tests`, each under
the code's `round(,1)` / `round(,2)` display rounding. -/
theorem c8_summary_division_safe (thr : ℚ) (model : String)
    (trials : List PromptTrial) (store0 : List CalibrationTest) :
    (trials = [] →
      (run_calibration_test thr model trials store0).2 = ⟨0, 0, 0, 0⟩) ∧
    (trials ≠ [] →
      (run_calibration_test thr model trials store0).2.total_tests = trials.length ∧
      (run_calibration_test thr model trials store0).2.passed =
        trials.countP (passesB thr) ∧
      (run_calibration_test thr model trials store0).2.pass_rate =
        roundTo 1 ((trials.countP (passesB thr) : ℚ) / (trials.length : ℚ) * 100) ∧
      (run_calibration_test thr model trials store0).2.average_score =
        roundTo 2 ((trials.filterMap trialHeuristicScore).sum / (trials.length : ℚ))) := by
  have hp := run_fold_passed thr model trials ⟨0, 0, [], store0⟩
  have hsc := run_fold_score thr model trials ⟨0, 0, [], store0⟩
  constructor
  · intro h
    subst h
    simp [run_calibration_test, roundTo_zero]
  · intro h
    have hpos : 0 < trials.length := List.length_pos.mpr h
    have hmax : max trials.length 1 = trials.length := Nat.max_eq_left hpos
    refine ⟨rfl, ?_, ?_, ?_⟩
    · simpa [run_calibration_test] using hp
    · simp only [run_calibration_test, hmax]
      rw [hp]
      simp
    · simp only [run_calibration_test, hmax]
      rw [hsc]
      simp

/-- A trial whose invocation succeeded with a long-enough response. -/
def okTrialC8 : PromptTrial :=
  ⟨"coding", "Write a palindrome finder", "id2",
    ⟨true, some "def longest_palindrome(s): # expand around each center",
      none, 2⟩, "2026-01-07T00:00:00"⟩

theorem c8_summary_division_safe_witness :
    (run_calibration_test (6/10) "local-model" [] []).2 = ⟨0, 0, 0, 0⟩ ∧
    (run_calibration_test (6/10) "local-model" [okTrialC8] []).2.pass_rate =
      roundTo 1 (([okTrialC8].countP (passesB (6/10)) : ℚ) /
        (([okTrialC8].length : ℕ) : ℚ) * 100) :=
  ⟨(c8_summary_division_safe (6/10) "local-model" [] []).1 rfl,
   ((c8_summary_division_safe (6/10) "local-model" [okTrialC8] []).2
      (List.cons_ne_nil _ _)).2.2.1⟩

/-!
## `get_calibration_history` (server.py)

The statistics block runs over the retrieved (and optionally
category-filtered) rows: `scores` keeps `quality_score` only for rows where
it is *truthy* (Python: `if r.get("quality_score")` — `0.0` and `NULL` are
falsy), `average_score` falls back to `0` when that list is empty, while
`total_tests` and the `pass_rate` denominator use all rows.
-/

structure HistoryStats where
  average_score : ℚ
  pass_count : Nat
  pass_rate : ℚ
deriving DecidableEq, Repr

/-- The `if all_results: ... statistics ...` block of `get_calibration_history`
(`none` models the empty-history branch that only sets a note). -/
def get_calibration_history_stats (all_results : List CalibrationTest) :
    Option HistoryStats :=
  if all_results.isEmpty then none
  else
    let scores := (all_results.filter (fun r => !(r.quality_score == 0))).map
      (fun r => r.quality_score)
    let passed := all_results.countP (fun r => r.passed)
    some
      { average_score :=
          if scores.isEmpty then 0
          else roundTo 2 (scores.sum / (scores.length : ℚ))
        pass_count := passed
        pass_rate := roundTo 1 ((passed : ℚ) / (all_results.length : ℚ) * 100) }

/-- `get_calibration_history` after retrieval: optional category filter, then
`total_tests` over the filtered rows and the statistics block. -/
def get_calibration_history (all0 : List CalibrationTest)
    (category : Option String) : Nat × Option HistoryStats :=
  let all_results := match category with
    | some c => all0.filter (fun r => r.prompt_category == c)
    | none => all0
  (all_results.length, get_calibration_history_stats all_results)

/-- **C10.** In the history statistics, `average_score` averages only the rows
with truthy (non-zero) `quality_score`; zero-score rows are excluded from the
average but still counted in the `pass_rate` denominator (all rows), and an
all-zero-score history reports `average_score = 0` through the empty-list
fallback. -/
theorem c10_history_truthy_average (rows : List CalibrationTest) (h : rows ≠ []) :
    (get_calibration_history_stats rows).map (fun s => s.pass_rate) =
      some (roundTo 1 ((rows.countP (fun r => r.passed) : ℚ) /
        (rows.length : ℚ) * 100)) ∧
    ((∃ r ∈ rows, r.quality_score ≠ 0) →
      (get_calibration_history_stats rows).map (fun s => s.average_score) =
        some (roundTo 2
          (((rows.filter (fun r => !(r.quality_score == 0))).map
              (fun r => r.quality_score)).sum /
            ((rows.filter (fun r => !(r.quality_score == 0))).length : ℚ)))) ∧
    ((∀ r ∈ rows, r.quality_score = 0) →
      (get_calibration_history_stats rows).map (fun s => s.average_score) =
        some 0) := by
  have hie : rows.isEmpty = false := by
    cases rows with
    | nil => exact absurd rfl h
    | cons a l => rfl
  refine ⟨?_, ?_, ?_⟩
  · unfold get_calibration_history_stats
    rw [hie]
    rfl
  · rintro ⟨r, hr, hq⟩
    have hfil : r ∈ rows.filter (fun r => !(r.quality_score == 0)) :=
      List.mem_filter.mpr ⟨hr, by simp [hq]⟩
    have hne : ((rows.filter (fun r => !(r.quality_score == 0))).map
        (fun r => r.quality_score)).isEmpty = false := by
      cases hfl : rows.filter (fun r => !(r.quality_score == 0)) with
      | nil => rw [hfl] at hfil; simp at hfil
      | cons a l => rfl
    unfold get_calibration_history_stats
    rw [hie]
    simp only [Bool.false_eq_true, if_false, Option.map_some', Option.some.injEq]
    simp [hne, List.length_map]
  · intro hall
    have hfil : rows.filter (fun r => !(r.quality_score == 0)) = [] := by
      rw [List.filter_eq_nil_iff]
      intro a ha
      simp [hall a ha]
    unfold get_calibration_history_stats
    rw [hie, hfil]
    rfl

/-- A history row with falsy `quality_score = 0.0`. -/
def histZero : CalibrationTest := ⟨"z1", "m", "coding", "p", "resp", 0, "[]", 1, "t", false⟩

/-- A history row with truthy `quality_score = 0.8`. -/
def histGood : CalibrationTest := ⟨"g1", "m", "coding", "p", "resp", 4/5, "[]", 1, "t", true⟩

theorem c10_history_truthy_average_witness :
    (get_calibration_history_stats [histZero, histGood]).map (fun s => s.pass_rate) =
      some (roundTo 1 (([histZero, histGood].countP (fun r => r.passed) : ℚ) /
        (([histZero, histGood] : List CalibrationTest).length : ℚ) * 100)) ∧
    (get_calibration_history_stats [histZero, histGood]).map (fun s => s.average_score) =
      some (roundTo 2
        ((([histZero, histGood].filter (fun r => !(r.quality_score == 0))).map
            (fun r => r.quality_score)).sum /
          (([histZero, histGood].filter (fun r => !(r.quality_score == 0))).length : ℚ))) ∧
    (get_calibration_history_stats [histZero, histZero]).map (fun s => s.average_score) =
      some 0 :=
  ⟨(c10_history_truthy_average [histZero, histGood] (List.cons_ne_nil _ _)).1,
   (c10_history_truthy_average [histZero, histGood] (List.cons_ne_nil _ _)).2.1
     ⟨histGood, by simp, by norm_num [histGood]⟩,
   (c10_history_truthy_average [histZero, histZero] (List.cons_ne_nil _ _)).2.2
     (by simp [histZero])⟩

theorem c2_balanced_policy_witness :
    (∃ b ∈ [cmpA, cmpB].filter (·.success), b.model_id = "model-b" ∧
      ∀ r ∈ [cmpA, cmpB].filter (·.success), balancedScore r ≤ balancedScore b) ∧
    compare_winner "balanced" [cmpA] = some cmpA.model_id :=
  ⟨c2_balanced_policy.1 [cmpA, cmpB] "model-b" c2_balanced_policy.2.2.2.2,
   c2_balanced_policy.2.1 cmpA [] rfl (by simp)⟩
